import Mathlib

/-!
Verification of the arxiv-curator repository: a shallow embedding of the
MCP worker (`index.js`) and the pipeline orchestrator (`curator`) with
proofs about deduplication, retry/backoff, the pending-request table of
the transport channel, the staged filter pipeline, and the Llama score
extractor.

Strings are modelled as `List Char` (`Str`); the JavaScript regex and
string operations used by the code are embedded as executable functions
below.
-/

abbrev Str := List Char

/-- ASCII lower-casing of one character, model of `String.toLowerCase`
applied characterwise (the source only deals with ASCII keywords). -/
def lowerChar (c : Char) : Char :=
  if 'A' ≤ c ∧ c ≤ 'Z' then Char.ofNat (c.toNat + 32) else c

/-- Model of JavaScript `toLowerCase` on the modelled strings. -/
def lowerStr (s : Str) : Str := s.map lowerChar

/-- JavaScript `\s` whitespace class (ASCII part), also used by `trim`. -/
def jsWS (c : Char) : Bool :=
  c == ' ' || c == '\t' || c == '\n' || c == '\x0b' || c == '\x0c' || c == '\r'

/-- Decimal digit test, JavaScript `\d`. -/
def isDigitCh (c : Char) : Bool := '0' ≤ c && c ≤ '9'

/-- Predicate `startsWithL pat s` holds when `pat` is a prefix of `s`. -/
def startsWithL : Str → Str → Bool
  | [], _ => true
  | _ :: _, [] => false
  | a :: as, b :: bs => a == b && startsWithL as bs

/-- Model of JavaScript `String.prototype.includes`: `pat` occurs as a
contiguous substring of the second argument. -/
def containsSub (pat : Str) : Str → Bool
  | [] => startsWithL pat []
  | c :: t => startsWithL pat (c :: t) || containsSub pat t

/-- Model of JavaScript `String.prototype.trim` (whitespace at both ends). -/
def trimStr (s : Str) : Str :=
  ((s.dropWhile jsWS).reverse.dropWhile jsWS).reverse

/-- Consume the literal `lit` at the head of `s`, returning the rest. -/
def dropLit (lit s : Str) : Option Str :=
  if startsWithL lit s then some (s.drop lit.length) else none

/-- Decimal value of a digit run, model of `parseInt` on a `\d+` match. -/
def digitsToNat (ds : Str) : Nat :=
  ds.foldl (fun n c => n * 10 + (c.toNat - 48)) 0

def scoreLit : Str := "Score:".toList

/-- Attempt to match the regex `Score:\s*(\d+)` at the head of `s`,
returning the captured integer. -/
def matchScoreHere (s : Str) : Option Nat :=
  match dropLit scoreLit s with
  | none => none
  | some r =>
    let r2 := r.dropWhile jsWS
    let ds := r2.takeWhile isDigitCh
    if ds.isEmpty then none else some (digitsToNat ds)

/-- First match of `Score:\s*(\d+)` anywhere in the text, as in
`result.match(/Score:\s*(\d+)/)`. -/
def findScore : Str → Option Nat
  | [] => none
  | c :: t =>
    match matchScoreHere (c :: t) with
    | some n => some n
    | none => findScore t

/-- Attempt to match the regex `Score:\s*\d+\/10\s*-\s*` at the head of
`s`, returning the remainder after the matched span. -/
def matchStripHere (s : Str) : Option Str :=
  match dropLit scoreLit s with
  | none => none
  | some r1 =>
    let r2 := r1.dropWhile jsWS
    let ds := r2.takeWhile isDigitCh
    if ds.isEmpty then none else
      match dropLit "/10".toList (r2.drop ds.length) with
      | none => none
      | some r4 =>
        match dropLit "-".toList (r4.dropWhile jsWS) with
        | none => none
        | some r6 => some (r6.dropWhile jsWS)

/-- Model of `result.replace(/Score:\s*\d+\/10\s*-\s*/, '')`: remove the
first occurrence of the pattern, keep everything else. -/
def replaceFirstScore : Str → Str
  | [] => []
  | c :: t =>
    match matchStripHere (c :: t) with
    | some rest => rest
    | none => c :: replaceFirstScore t

/-- Score extraction of `analyzeWithLlama`:
`scoreMatch ? parseInt(scoreMatch[1]) : 0`. -/
def analyzeScore (r : Str) : Nat := (findScore r).getD 0

/-- Reasoning extraction of `analyzeWithLlama`:
`result.replace(/Score:\s*\d+\/10\s*-\s*/, '').trim()`. -/
def analyzeReasoning (r : Str) : Str := trimStr (replaceFirstScore r)

/-- Fallback reasoning used by the catch branch of `analyzeWithLlama`. -/
def fallbackReasoning : Str :=
  "Analysis failed - Make sure Ollama is running with ollama serve".toList

/-- The whole of `analyzeWithLlama` as a function of the oracle response: `none` models
a failed transport to the oracle (the catch branch); `some r` models a
successful response with body `r`. Returns (score, reasoning,
full_response). -/
def analyzeResult (resp : Option Str) : Nat × Str × Str :=
  match resp with
  | none => (0, fallbackReasoning, "Error".toList)
  | some r => (analyzeScore r, analyzeReasoning r, r)

/-! ## Worker: `fetchWithRetry` (index.js, lines 21-45) -/

/-- The body of the `for (let attempt = 1; attempt <= maxRetries; ...)`
loop of `fetchWithRetry`, iterating over the remaining attempt indices.
`oracle i` is the outcome of HTTP attempt `i`.  Returns the overall
outcome (`Except.ok none` models the `undefined` return when the loop
body never runs) together with the list of backoff delays awaited, in
order. -/
def fetchLoop (oracle : Nat → Except ε α) (baseDelay : Nat) :
    List Nat → Except ε (Option α) × List Nat
  | [] => (Except.ok none, [])
  | attempt :: rest =>
    match oracle attempt with
    | Except.ok v => (Except.ok (some v), [])
    | Except.error e =>
      if rest.isEmpty then (Except.error e, [])
      else
        let delayMs := baseDelay * 2 ^ (attempt - 1)
        let r := fetchLoop oracle baseDelay rest
        (r.1, delayMs :: r.2)

/-- Function `fetchWithRetry(url, maxRetries, baseDelay)`: attempts run over the
index sequence `1, …, maxRetries`. -/
def fetchWithRetry (oracle : Nat → Except ε α) (maxRetries baseDelay : Nat) :
    Except ε (Option α) × List Nat :=
  fetchLoop oracle baseDelay (List.range' 1 maxRetries)

/-! ## Worker: paper records and `get_all_titles` dedup (index.js, 111-146) -/

/-- A record built by `get_all_titles` for one feed entry (index.js,
lines 111-117): note `category` is the single source category the entry
was fetched under. -/
structure TPaper where
  title : Str
  authors : Str
  url : Str
  published : Str
  category : Str
deriving DecidableEq, Repr

/-- The dedup loop of `get_all_titles` (index.js, lines 134-142), with the
`seenUrls` set made explicit. -/
def uniqueGo : List TPaper → List Str → List TPaper
  | [], _ => []
  | p :: ps, seen =>
    if seen.contains p.url then uniqueGo ps seen
    else p :: uniqueGo ps (p.url :: seen)

/-- The `uniquePapers` list as computed by `get_all_titles`: deduplication by `url`
starting from an empty `seenUrls` set. -/
def uniquePapersOf (l : List TPaper) : List TPaper := uniqueGo l []

/-- The `papers_per_category` handling in `get_all_titles` (index.js, lines
87-90): `arguments?.papers_per_category || 100` followed by
`Math.min(·, 200)`.  `none` models an absent argument. -/
def papersPerCategoryOf (arg : Option Int) : Int :=
  min (match arg with
       | none => (100 : Int)
       | some n => if n = 0 then 100 else n) 200

/-! ## Transport channel: pending-request table (curator, lines 40-107) -/

/-- The reject message of the per-request timeout. -/
def timeoutMsg : Str := "Request timeout".toList

/-- The reject message used when a response error has no message. -/
def unknownErrMsg : Str := "Unknown error".toList

/-- Operation `this.pendingRequests.has(k)` on the modelled `Map`. -/
def mapHas (m : List (Nat × α)) (k : Nat) : Bool := m.any fun e => e.1 == k

/-- Operation `this.pendingRequests.get(k)` on the modelled `Map`. -/
def mapGet (m : List (Nat × α)) (k : Nat) : Option α :=
  (m.find? fun e => e.1 == k).map (·.2)

/-- Operation `this.pendingRequests.delete(k)` on the modelled `Map`. -/
def mapDelete (m : List (Nat × α)) (k : Nat) : List (Nat × α) :=
  m.filter fun e => !(e.1 == k)

/-- One parsed response line of the channel: `id`, an optional `error`
object carrying an optional `message`, and the `result` payload. -/
structure RespMsg (ρ : Type) where
  id : Nat
  error : Option (Option Str)
  result : ρ

/-- The `setTimeout` callback of `sendRequest` (curator, lines 101-106)
firing for request `id`: if the entry is still pending it is deleted and
its waiter is rejected with the timeout error; the second component is
`some (waiter, message)` when a rejection happened. -/
def onTimeout (m : List (Nat × α)) (id : Nat) :
    List (Nat × α) × Option (α × Str) :=
  if mapHas m id then
    (mapDelete m id, (mapGet m id).map fun w => (w, timeoutMsg))
  else (m, none)

/-- The stdout line handler of `connect` (curator, lines 49-66) applied to
one parsed JSON line: only a line whose truthy `id` is pending settles a
waiter (`Sum.inl` a rejection message, `Sum.inr` a resolution payload);
everything else leaves the table untouched and settles nothing. -/
def onLine (m : List (Nat × α)) (msg : RespMsg ρ) :
    List (Nat × α) × Option (α × (Str ⊕ ρ)) :=
  if msg.id != 0 && mapHas m msg.id then
    match mapGet m msg.id with
    | some w =>
      (mapDelete m msg.id,
        some (w, match msg.error with
                 | some eo => Sum.inl (eo.getD unknownErrMsg)
                 | none => Sum.inr msg.result))
    | none => (m, none)
  else (m, none)

/-! ## Pipeline orchestrator: `curatePapers` (curator, lines 191-292) -/

/-- Milliseconds per day, the unit of the date cutoff. -/
def msPerDay : Int := 86400000

/-- Stage 1 date filter (curator, lines 204-211): keep papers whose
published date parses and is at or after `now - daysBack` days.  `dateVal`
models `new Date(s).getTime()`: `none` is `NaN` (unparseable), and a `NaN`
comparison is false. -/
def recentFilter (dateVal : Str → Option Int) (now : Int) (daysBack : Nat)
    (papers : List TPaper) : List TPaper :=
  papers.filter fun p =>
    match dateVal p.published with
    | some t => now - daysBack * msPerDay ≤ t
    | none => false

/-- The fixed keyword list of stage 2 (curator, lines 217-221). -/
def keywords : List Str :=
  ["reward", "rlhf", "alignment", "preference", "human feedback",
   "constitutional", "safety", "robustness", "evaluation", "benchmark",
   "inference", "post-training", "fine-tuning"].map String.toList

/-- The stage 2 predicate (curator, lines 223-225): lower-case the
template string `` `${title} ${authors}` `` and test each keyword with
`includes`. -/
def keywordMatch (p : TPaper) : Bool :=
  keywords.any fun k => containsSub k (lowerStr (p.title ++ ' ' :: p.authors))

/-- Stage 2 (curator, lines 223-226): keyword filter then
`slice(0, maxCandidates)`. -/
def candidatesOf (recent : List TPaper) (maxCandidates : Nat) : List TPaper :=
  (recent.filter keywordMatch).take maxCandidates

/-- Case-insensitive substring matching, written from the words of the
spec
("case-insensitive substring match of any keyword … against the
concatenation of title and authors") for comparison with the
lower-case-then-`includes` computation of the code. -/
def ciSubstr (k s : Str) : Bool := containsSub (lowerStr k) (lowerStr s)

/-- A paper enriched with an abstract, as returned by
`get_abstracts_for_papers` (index.js, lines 204-211). -/
structure AbPaper where
  title : Str
  abstract : Str
  authors : Str
  url : Str
  published : Str
  categories : Str
deriving DecidableEq, Repr

/-- The parsed result of `get_abstracts_for_papers` (index.js, 230-239). -/
structure AbstractData where
  requested : Nat
  fetched : Nat
  papers : List AbPaper
deriving DecidableEq, Repr

/-- The parsed result of `get_all_titles` as consumed by the pipeline. -/
structure TitleData where
  total_papers : Nat
  papers : List TPaper
deriving DecidableEq, Repr

/-- An analyzed paper (curator, lines 259-264): the abstract record plus
the Llama fields. -/
structure AnPaper where
  paper : AbPaper
  llama_score : Nat
  llama_reasoning : Str
  llama_full_response : Str
deriving DecidableEq, Repr

/-- Stage-4 insertion step: the JavaScript stable sort with comparator
`(a, b) => b.llama_score - a.llama_score` places `a` before `b` exactly
when `key b ≤ key a`, keeping earlier elements first on ties. -/
def insertDescBy (key : α → Nat) (a : α) : List α → List α
  | [] => [a]
  | b :: bs => if key b ≤ key a then a :: b :: bs else b :: insertDescBy key a bs

/-- Stable descending sort by `key`, the model of
`Array.prototype.sort((a, b) => b.llama_score - a.llama_score)` (stable
per the language specification). -/
def sortDescBy (key : α → Nat) (l : List α) : List α :=
  l.foldr (insertDescBy key) []

/-- Stage 6 (curator, lines 272-275): threshold filter then stable
descending sort by `llama_score`. -/
def relevantOf (minScore : Nat) (analyzed : List AnPaper) : List AnPaper :=
  sortDescBy (fun p => p.llama_score)
    (analyzed.filter fun p => minScore ≤ p.llama_score)

/-- The structured summary returned by `curatePapers` (lines 232-239 and
279-286). -/
structure CurateResult where
  total_scanned : Nat
  recent_papers : Nat
  days_back : Nat
  candidates : Nat
  analyzed : List AnPaper
  relevant : List AnPaper
deriving DecidableEq, Repr

/-- External calls issued by the pipeline after stage 2; recorded so that
"stage not invoked" is provable. -/
inductive CallEv
  | callAbstracts (urls : List Str)
  | callOracle (p : AbPaper)
deriving DecidableEq, Repr

/-- Pipeline `curatePapers` from the parsed result of stage 1 on (curator, lines
204-286): `dateVal`/`now` fix the date semantics, `fetchAbstracts` models
the `get_abstracts_for_papers` round-trip (which can throw), `analyze`
models `analyzeWithLlama` (total: it catches its own errors).  Returns
the result (or the re-thrown error) and the trace of external calls made
after stage 2. -/
def curatePapers (dateVal : Str → Option Int) (now : Int)
    (titleData : TitleData) (daysBack maxCandidates minScore : Nat)
    (fetchAbstracts : List Str → Except Str AbstractData)
    (analyze : AbPaper → Nat × Str × Str) :
    Except Str CurateResult × List CallEv :=
  let recent := recentFilter dateVal now daysBack titleData.papers
  let cands := candidatesOf recent maxCandidates
  if cands.length == 0 then
    (Except.ok
      { total_scanned := titleData.total_papers
        recent_papers := recent.length
        days_back := daysBack
        candidates := 0
        analyzed := []
        relevant := [] }, [])
  else
    let paperUrls := cands.map (·.url)
    match fetchAbstracts paperUrls with
    | Except.error e => (Except.error e, [CallEv.callAbstracts paperUrls])
    | Except.ok abstractData =>
      let analyzed := abstractData.papers.map fun p =>
        let a := analyze p
        AnPaper.mk p a.1 a.2.1 a.2.2
      (Except.ok
        { total_scanned := titleData.total_papers
          recent_papers := recent.length
          days_back := daysBack
          candidates := cands.length
          analyzed := analyzed
          relevant := relevantOf minScore analyzed },
       CallEv.callAbstracts paperUrls ::
         abstractData.papers.map CallEv.callOracle)

/-! ## Helper lemmas -/

lemma uniqueGo_filter (u : Str) :
    ∀ (l : List TPaper) (seen : List Str),
      (uniqueGo l seen).filter (fun p => p.url == u) =
        if seen.contains u then []
        else (l.filter (fun p => p.url == u)).take 1 := by
  intro l
  induction l with
  | nil => intro seen; by_cases h : seen.contains u <;> simp [uniqueGo, h]
  | cons p ps ih =>
    intro seen
    simp only [uniqueGo]
    by_cases hc : seen.contains p.url
    · rw [if_pos hc, ih, List.filter_cons]
      by_cases hpu : p.url = u
      · subst hpu
        have hm : p.url ∈ seen := by simpa using hc
        simp [hm]
      · simp [beq_eq_false_iff_ne, hpu]
    · rw [if_neg hc, List.filter_cons, List.filter_cons, ih]
      by_cases hpu : p.url = u
      · subst hpu
        have hm : p.url ∉ seen := by simpa using hc
        have hcc : (p.url :: seen).contains p.url = true := by
          simp [List.contains_cons]
        rw [hcc]
        simp [hm]
      · have hne : (p.url == u) = false := beq_eq_false_iff_ne.mpr hpu
        have hub : (u == p.url) = false :=
          beq_eq_false_iff_ne.mpr fun h => hpu h.symm
        have hcc : (p.url :: seen).contains u = seen.contains u := by
          simp only [List.contains_cons, hub, Bool.false_or]
        rw [hne, hcc]
        simp

lemma mapHas_delete (m : List (Nat × α)) (k : Nat) :
    mapHas (mapDelete m k) k = false := by
  induction m with
  | nil => rfl
  | cons e es ih =>
    by_cases h : e.1 = k
    · have hb : (e.1 == k) = true := beq_iff_eq.mpr h
      rw [show mapDelete (e :: es) k = mapDelete es k from by
        simp [mapDelete, List.filter_cons, hb]]
      exact ih
    · have hb : (e.1 == k) = false := beq_eq_false_iff_ne.mpr h
      rw [show mapDelete (e :: es) k = e :: mapDelete es k from by
        simp [mapDelete, List.filter_cons, hb]]
      rw [show mapHas (e :: mapDelete es k) k =
          ((e.1 == k) || mapHas (mapDelete es k) k) from by simp [mapHas]]
      rw [hb, ih]
      rfl

lemma mapHas_get (m : List (Nat × α)) (k : Nat) (h : mapHas m k = true) :
    ∃ w, mapGet m k = some w := by
  induction m with
  | nil => simp [mapHas] at h
  | cons e es ih =>
    by_cases he : e.1 = k
    · exact ⟨e.2, by simp [mapGet, List.find?_cons, he]⟩
    · have h' : mapHas es k = true := by
        simpa [mapHas, beq_eq_false_iff_ne, he] using h
      obtain ⟨w, hw⟩ := ih h'
      exact ⟨w, by simpa [mapGet, List.find?_cons, beq_eq_false_iff_ne, he]
        using hw⟩

/-! ## Claim theorems -/

/-- C1 (counterexample): two fetched records with the same `id` (url) but
different source categories; after dedup the single surviving record
carries only the category of the first record, not the union — the second
category is nowhere in the output. -/
def ceP1 : TPaper :=
  ⟨"T".toList, "A".toList, "u1".toList, "2024-01-01".toList, "cs.LG".toList⟩

def ceP2 : TPaper :=
  ⟨"T".toList, "A".toList, "u1".toList, "2024-01-01".toList, "cs.AI".toList⟩

/-- C1 (counterexample): `get_all_titles` dedup drops the category of the
duplicate instead of merging: the output for two same-`id` records of
categories `cs.LG` and `cs.AI` is a single record whose category
information is `cs.LG` alone, so its category set is not the union. -/
theorem dedup_union_ce :
    uniquePapersOf [ceP1, ceP2] = [ceP1] ∧
    ceP2.category ≠ ceP1.category ∧
    ∀ q ∈ uniquePapersOf [ceP1, ceP2], q.category ≠ ceP2.category := by
  decide

/-- C1 (amended): for every fetched list and every `id` (url) `u`, the
deduplicated output of `get_all_titles` restricted to records with url
`u` is exactly the first fetched record with that url: one record per
duplicated `id`, first occurrence wins, later categories discarded. -/
theorem dedup_first_wins (l : List TPaper) (u : Str) :
    (uniquePapersOf l).filter (fun p => p.url == u) =
      (l.filter (fun p => p.url == u)).take 1 := by
  rw [uniquePapersOf, uniqueGo_filter u l []]
  rfl

/-- C10: `get_all_titles` argument handling: an absent or zero
`papers_per_category` becomes 100 (the falsy default, applied before the
cap), and any request above 200 is capped to exactly 200. -/
theorem papers_per_category_spec (arg : Option Int) :
    (arg = none → papersPerCategoryOf arg = 100) ∧
    (arg = some 0 → papersPerCategoryOf arg = 100) ∧
    (∀ n : Int, arg = some n → 200 < n → papersPerCategoryOf arg = 200) := by
  refine ⟨?_, ?_, ?_⟩
  · rintro rfl; rfl
  · rintro rfl; rfl
  · rintro n rfl h
    show min (if n = 0 then (100 : Int) else n) 200 = 200
    rw [if_neg (by omega : ¬ n = 0)]
    exact min_eq_right (by omega)

/-- C10 witness: the three behaviours at concrete arguments. -/
theorem papers_per_category_witness :
    papersPerCategoryOf none = 100 ∧ papersPerCategoryOf (some 0) = 100 ∧
    papersPerCategoryOf (some 300) = 200 :=
  ⟨(papers_per_category_spec none).1 rfl,
   (papers_per_category_spec (some 0)).2.1 rfl,
   (papers_per_category_spec (some 300)).2.2 300 rfl (by norm_num)⟩

/-- C4: a pending channel request whose timeout fires is rejected with
the timeout error and removed from the pending table, and a response
line arriving afterwards with the same id settles nothing and changes
nothing. -/
theorem channel_timeout_spec {α ρ : Type} (m : List (Nat × α)) (id : Nat)
    (h : mapHas m id = true) :
    (∃ w, mapGet m id = some w ∧ (onTimeout m id).2 = some (w, timeoutMsg)) ∧
    mapHas (onTimeout m id).1 id = false ∧
    ∀ msg : RespMsg ρ, msg.id = id →
      onLine (onTimeout m id).1 msg = ((onTimeout m id).1, none) := by
  obtain ⟨w, hw⟩ := mapHas_get m id h
  have h1 : (onTimeout m id).1 = mapDelete m id := by simp [onTimeout, h]
  refine ⟨⟨w, hw, by simp [onTimeout, h, hw]⟩, ?_, ?_⟩
  · rw [h1]; exact mapHas_delete m id
  · intro msg hmsg
    have hh : mapHas (onTimeout m id).1 msg.id = false := by
      rw [hmsg, h1]; exact mapHas_delete m id
    simp [onLine, hh]

/-- C4 witness: a singleton pending table, timeout for id 1, then a late
response line with id 1. -/
theorem channel_timeout_witness :
    (onTimeout ([(1, 0)] : List (Nat × Nat)) 1).2 = some (0, timeoutMsg) ∧
    mapHas (onTimeout ([(1, 0)] : List (Nat × Nat)) 1).1 1 = false ∧
    onLine (ρ := Nat) (onTimeout ([(1, 0)] : List (Nat × Nat)) 1).1
        ⟨1, none, 0⟩ =
      ((onTimeout ([(1, 0)] : List (Nat × Nat)) 1).1, none) := by
  obtain ⟨⟨w, hw, h2⟩, h3, h4⟩ :=
    channel_timeout_spec (ρ := Nat) ([(1, 0)] : List (Nat × Nat)) 1 (by decide)
  have hw0 : w = 0 := by
    have h5 := hw
    simp [mapGet, List.find?] at h5
    omega
  exact ⟨by rw [h2, hw0], h3, h4 ⟨1, none, 0⟩ rfl⟩

lemma fetchLoop_success {ε α : Type} (oracle : Nat → Except ε α)
    (baseDelay k : Nat) (v : α) (e : Nat → ε) :
    ∀ (n a : Nat), a ≤ k → k < a + n →
      (∀ i, a ≤ i → i < k → oracle i = Except.error (e i)) →
      oracle k = Except.ok v →
      fetchLoop oracle baseDelay (List.range' a n) =
        (Except.ok (some v),
          (List.range' a (k - a)).map fun i => baseDelay * 2 ^ (i - 1)) := by
  intro n
  induction n with
  | zero => intro a h1 h2 _ _; omega
  | succ n ih =>
    intro a ha hk hfail hsucc
    rw [List.range'_succ]
    by_cases hak : a = k
    · subst hak
      rw [show fetchLoop oracle baseDelay (a :: List.range' (a + 1) n) =
            (Except.ok (some v), []) from by
          simp [fetchLoop, hsucc]]
      simp [Nat.sub_self]
    · have ha' : a < k := lt_of_le_of_ne ha hak
      have hne : (List.range' (a + 1) n).isEmpty = false := by
        obtain ⟨m, rfl⟩ : ∃ m, n = m + 1 := ⟨n - 1, by omega⟩
        rw [List.range'_succ]
        rfl
      rw [show fetchLoop oracle baseDelay (a :: List.range' (a + 1) n) =
            ((fetchLoop oracle baseDelay (List.range' (a + 1) n)).1,
              baseDelay * 2 ^ (a - 1) ::
                (fetchLoop oracle baseDelay (List.range' (a + 1) n)).2) from by
          simp [fetchLoop, hfail a le_rfl ha', hne]]
      rw [ih (a + 1) (by omega) (by omega)
        (fun i h1 h2 => hfail i (by omega) h2) hsucc]
      rw [show k - a = (k - (a + 1)) + 1 from by omega, List.range'_succ]
      simp

lemma fetchLoop_allfail {ε α : Type} (oracle : Nat → Except ε α)
    (baseDelay : Nat) (e : Nat → ε) :
    ∀ (n a : Nat), 1 ≤ n →
      (∀ i, a ≤ i → i < a + n → oracle i = Except.error (e i)) →
      fetchLoop (α := α) oracle baseDelay (List.range' a n) =
        (Except.error (e (a + n - 1)),
          (List.range' a (n - 1)).map fun i => baseDelay * 2 ^ (i - 1)) := by
  intro n
  induction n with
  | zero => intro a h1 _; omega
  | succ n ih =>
    intro a _ hfail
    rw [List.range'_succ]
    by_cases hn : n = 0
    · subst hn
      rw [show fetchLoop (α := α) oracle baseDelay (a :: List.range' (a + 1) 0) =
            (Except.error (e a), []) from by
          simp [fetchLoop, hfail a le_rfl (by omega), List.range']]
      simp
    · have hne : (List.range' (a + 1) n).isEmpty = false := by
        obtain ⟨m, rfl⟩ : ∃ m, n = m + 1 := ⟨n - 1, by omega⟩
        rw [List.range'_succ]
        rfl
      rw [show fetchLoop (α := α) oracle baseDelay (a :: List.range' (a + 1) n) =
            ((fetchLoop (α := α) oracle baseDelay (List.range' (a + 1) n)).1,
              baseDelay * 2 ^ (a - 1) ::
                (fetchLoop (α := α) oracle baseDelay (List.range' (a + 1) n)).2)
          from by
          simp [fetchLoop, hfail a le_rfl (by omega), hne]]
      rw [ih (a + 1) (by omega) (fun i h1 h2 => hfail i (by omega) (by omega))]
      rw [show n.succ - 1 = (n - 1) + 1 from by omega, List.range'_succ]
      rw [show a + 1 + n - 1 = a + n.succ - 1 from by omega]
      simp

lemma range'_one_map_pow (baseDelay m : Nat) :
    (List.range' 1 m).map (fun i => baseDelay * 2 ^ (i - 1)) =
      (List.range m).map fun i => baseDelay * 2 ^ i := by
  rw [List.range'_eq_map_range, List.map_map]
  exact List.map_congr_left fun i _ => by
    simp [Nat.add_sub_cancel_left]

/-- C5: `fetchWithRetry` behaviour.  If the HTTP attempts fail on
attempts `1..k-1` and succeed on attempt `k ≤ maxRetries`, the fetch
returns the successful response, having waited exactly the delays
`baseDelay * 2^0, …, baseDelay * 2^(k-2)` between successive attempts;
if all `maxRetries` attempts fail, the error of the final attempt is surfaced
to the caller and no delay follows the final attempt (there are exactly
`maxRetries - 1` delays). -/
theorem fetch_retry_spec {ε α : Type} (oracle : Nat → Except ε α)
    (maxRetries baseDelay k : Nat) (v : α) (e : Nat → ε) :
    (1 ≤ k → k ≤ maxRetries →
      (∀ i, 1 ≤ i → i < k → oracle i = Except.error (e i)) →
      oracle k = Except.ok v →
      fetchWithRetry oracle maxRetries baseDelay =
        (Except.ok (some v),
          (List.range (k - 1)).map fun i => baseDelay * 2 ^ i)) ∧
    (1 ≤ maxRetries →
      (∀ i, 1 ≤ i → i ≤ maxRetries → oracle i = Except.error (e i)) →
      fetchWithRetry oracle maxRetries baseDelay =
        (Except.error (e maxRetries),
          (List.range (maxRetries - 1)).map fun i => baseDelay * 2 ^ i)) := by
  constructor
  · intro hk1 hkm hfail hsucc
    rw [fetchWithRetry,
      fetchLoop_success oracle baseDelay k v e maxRetries 1 hk1 (by omega)
        (fun i h1 h2 => hfail i h1 h2) hsucc]
    rw [show k - 1 = k - 1 from rfl, ← range'_one_map_pow baseDelay (k - 1)]
  · intro hm1 hfail
    rw [fetchWithRetry,
      fetchLoop_allfail oracle baseDelay e maxRetries 1 hm1
        (fun i h1 h2 => hfail i h1 (by omega))]
    rw [show 1 + maxRetries - 1 = maxRetries from by omega,
      ← range'_one_map_pow baseDelay (maxRetries - 1)]

/-- Oracle for the C5 witness: attempts 1 and 2 fail, attempt 3 succeeds. -/
def w5oracle : Nat → Except Str Nat :=
  fun i => if i = 3 then Except.ok 42 else Except.error "boom".toList

/-- Oracle for the C5 witness: every attempt fails. -/
def w5oracleAll : Nat → Except Str Nat :=
  fun _ => Except.error "boom".toList

/-- C5 witness: two failures then success with `maxRetries = 3` yields
the result with delays `[baseDelay, 2*baseDelay]`; two failures with
`maxRetries = 2` surfaces the final error with a single delay. -/
theorem fetch_retry_witness :
    fetchWithRetry w5oracle 3 1000 =
      (Except.ok (some 42), (List.range 2).map fun i => 1000 * 2 ^ i) ∧
    fetchWithRetry w5oracleAll 2 500 =
      (Except.error "boom".toList,
        (List.range 1).map fun i => 500 * 2 ^ i) := by
  constructor
  · exact (fetch_retry_spec w5oracle 3 1000 3 42 fun _ => "boom".toList).1
      (by norm_num) (by norm_num)
      (fun i _ h2 => by
        rw [w5oracle, if_neg (by omega : ¬ i = 3)])
      (by rw [w5oracle, if_pos rfl])
  · exact (fetch_retry_spec w5oracleAll 2 500 0 0 fun _ => "boom".toList).2
      (by norm_num) (fun i _ _ => rfl)

lemma mem_insertDescBy (key : α → Nat) (a x : α) :
    ∀ m, x ∈ insertDescBy key a m ↔ x = a ∨ x ∈ m := by
  intro m
  induction m with
  | nil => simp [insertDescBy]
  | cons b bs ih =>
    simp only [insertDescBy]
    by_cases h : key b ≤ key a
    · simp [h]
    · rw [if_neg h]
      simp only [List.mem_cons, ih]
      tauto

lemma pairwise_insertDescBy (key : α → Nat) (a : α) :
    ∀ m, m.Pairwise (fun x y => key y ≤ key x) →
      (insertDescBy key a m).Pairwise (fun x y => key y ≤ key x) := by
  intro m
  induction m with
  | nil => intro _; simp [insertDescBy]
  | cons b bs ih =>
    intro h
    rw [List.pairwise_cons] at h
    obtain ⟨hb, hbs⟩ := h
    simp only [insertDescBy]
    by_cases hba : key b ≤ key a
    · rw [if_pos hba, List.pairwise_cons]
      refine ⟨?_, List.pairwise_cons.mpr ⟨hb, hbs⟩⟩
      intro x hx
      rcases List.mem_cons.mp hx with rfl | hx'
      · exact hba
      · exact (hb x hx').trans hba
    · rw [if_neg hba, List.pairwise_cons]
      refine ⟨?_, ih hbs⟩
      intro x hx
      rcases (mem_insertDescBy key a x bs).mp hx with rfl | hx'
      · omega
      · exact hb x hx'

lemma pairwise_sortDescBy (key : α → Nat) :
    ∀ l, (sortDescBy key l).Pairwise (fun x y => key y ≤ key x) := by
  intro l
  induction l with
  | nil => simp [sortDescBy]
  | cons a l ih => exact pairwise_insertDescBy key a _ ih

lemma mem_sortDescBy (key : α → Nat) (x : α) :
    ∀ l, x ∈ sortDescBy key l ↔ x ∈ l := by
  intro l
  induction l with
  | nil => simp [sortDescBy]
  | cons a l ih =>
    show x ∈ insertDescBy key a (sortDescBy key l) ↔ _
    rw [mem_insertDescBy, ih]
    simp

lemma filter_insertDescBy (key : α → Nat) (a : α) (s : Nat) :
    ∀ m, (insertDescBy key a m).filter (fun x => key x == s) =
      if key a == s then a :: m.filter (fun x => key x == s)
      else m.filter (fun x => key x == s) := by
  intro m
  induction m with
  | nil =>
    by_cases hs : (key a == s) <;> simp [insertDescBy, List.filter_cons, hs]
  | cons b bs ih =>
    simp only [insertDescBy]
    by_cases hba : key b ≤ key a
    · rw [if_pos hba, List.filter_cons]
    · rw [if_neg hba, List.filter_cons, List.filter_cons, ih]
      by_cases hbs : (key b == s) <;> by_cases has : (key a == s)
      · exact absurd (by
          have h1 : key b = s := beq_iff_eq.mp hbs
          have h2 : key a = s := beq_iff_eq.mp has
          omega : key b ≤ key a) hba
      · simp [hbs, has]
      · simp [hbs, has]
      · simp [hbs, has]

lemma filter_sortDescBy (key : α → Nat) (s : Nat) :
    ∀ l, (sortDescBy key l).filter (fun x => key x == s) =
      l.filter (fun x => key x == s) := by
  intro l
  induction l with
  | nil => rfl
  | cons a l ih =>
    show (insertDescBy key a (sortDescBy key l)).filter _ = _
    rw [filter_insertDescBy, ih, List.filter_cons]

/-- Papers of the `[3,7,7,5]` example in the claim. -/
def q1 : AnPaper := ⟨⟨"p1".toList, [], [], [], [], []⟩, 3, [], []⟩

def q2 : AnPaper := ⟨⟨"p2".toList, [], [], [], [], []⟩, 7, [], []⟩

def q3 : AnPaper := ⟨⟨"p3".toList, [], [], [], [], []⟩, 7, [], []⟩

def q4 : AnPaper := ⟨⟨"p4".toList, [], [], [], [], []⟩, 5, [], []⟩

/-- C3: the final relevant list holds exactly the analyzed papers with
`llama_score ≥ minScore` (same membership, and — via the per-score filter
identity — the same multiplicity and original relative order within each
score class, i.e. the sort is stable), sorted descending by score; on
the `[3,7,7,5]` example with `minScore = 5` it returns papers 2, 3, 4 in
that order. -/
theorem relevant_rank_spec (minScore : Nat) (analyzed : List AnPaper) :
    (∀ p, p ∈ relevantOf minScore analyzed ↔
        p ∈ analyzed.filter fun q => minScore ≤ q.llama_score) ∧
    (relevantOf minScore analyzed).Pairwise
      (fun a b => b.llama_score ≤ a.llama_score) ∧
    (∀ s, (relevantOf minScore analyzed).filter
          (fun p => p.llama_score == s) =
        (analyzed.filter fun q => minScore ≤ q.llama_score).filter
          (fun p => p.llama_score == s)) ∧
    relevantOf 5 [q1, q2, q3, q4] = [q2, q3, q4] := by
  refine ⟨?_, ?_, ?_, by decide⟩
  · intro p
    exact mem_sortDescBy _ p _
  · exact pairwise_sortDescBy _ _
  · intro s
    exact filter_sortDescBy _ s _

/-- C8: the date filter keeps exactly the papers whose published date
parses and is at or after the inclusive cutoff `now - daysBack` days
(so a paper at exactly the cutoff is kept, one any amount earlier is
dropped), excludes every paper whose date does not parse, and preserves
the input order. -/
theorem date_filter_spec (dateVal : Str → Option Int) (now : Int)
    (daysBack : Nat) (papers : List TPaper) :
    (recentFilter dateVal now daysBack papers).Sublist papers ∧
    ∀ p, p ∈ recentFilter dateVal now daysBack papers ↔
      p ∈ papers ∧ ∃ t, dateVal p.published = some t ∧
        now - daysBack * msPerDay ≤ t := by
  constructor
  · exact List.filter_sublist _
  · intro p
    rw [recentFilter, List.mem_filter]
    cases h : dateVal p.published with
    | none => simp [h]
    | some t => simp [h]

lemma anyCongr (f g : α → Bool) :
    ∀ l : List α, (∀ x ∈ l, f x = g x) → l.any f = l.any g := by
  intro l
  induction l with
  | nil => intro _; rfl
  | cons a l ih =>
    intro h
    rw [List.any_cons, List.any_cons, h a (List.mem_cons_self a l),
      ih fun x hx => h x (List.mem_cons_of_mem a hx)]

lemma lowerStr_keywords : ∀ k ∈ keywords, lowerStr k = k := by decide

lemma keywordMatch_eq_ci (p : TPaper) :
    keywordMatch p =
      keywords.any fun k => ciSubstr k (p.title ++ ' ' :: p.authors) := by
  rw [keywordMatch]
  exact anyCongr _ _ keywords fun k hk => by
    rw [ciSubstr, lowerStr_keywords k hk]

/-- C9: the keyword stage keeps exactly the papers for which some fixed
keyword matches case-insensitively as a substring of the (space-joined)
concatenation of title and authors, keeps the input order, truncates to
the first `maxCandidates` survivors, and a title containing `"RLHF"`
matches the keyword `"rlhf"`. -/
theorem keyword_filter_spec (recent : List TPaper) (maxCandidates : Nat) :
    candidatesOf recent maxCandidates =
      (recent.filter fun p =>
        keywords.any fun k =>
          ciSubstr k (p.title ++ ' ' :: p.authors)).take maxCandidates ∧
    (candidatesOf recent maxCandidates).Sublist recent ∧
    (candidatesOf recent maxCandidates).length =
      min maxCandidates (recent.filter keywordMatch).length ∧
    keywordMatch ⟨"Scaling RLHF to agents".toList, "Ann Bob".toList,
      "u".toList, "d".toList, "c".toList⟩ = true := by
  refine ⟨?_, ?_, ?_, by decide⟩
  · show (recent.filter keywordMatch).take maxCandidates = _
    exact congrArg (List.take maxCandidates)
      (List.filter_congr fun p _ => keywordMatch_eq_ci p)
  · exact (List.take_sublist _ _).trans (List.filter_sublist _)
  · rw [candidatesOf, List.length_take]

/-- C6: when zero papers survive the keyword filter, `curatePapers`
returns normally (an `Except.ok`, not an error) with `candidates = 0`,
empty `analyzed` and `relevant` lists and the total/recent counts, and
its external-call trace is empty: neither the abstract fetch nor the
scoring oracle is ever invoked. -/
theorem empty_candidates_spec (dateVal : Str → Option Int) (now : Int)
    (titleData : TitleData) (daysBack maxCandidates minScore : Nat)
    (fetchAbstracts : List Str → Except Str AbstractData)
    (analyze : AbPaper → Nat × Str × Str)
    (h : (recentFilter dateVal now daysBack titleData.papers).filter
        keywordMatch = []) :
    curatePapers dateVal now titleData daysBack maxCandidates minScore
        fetchAbstracts analyze =
      (Except.ok
        { total_scanned := titleData.total_papers
          recent_papers :=
            (recentFilter dateVal now daysBack titleData.papers).length
          days_back := daysBack
          candidates := 0
          analyzed := []
          relevant := [] }, []) := by
  rw [curatePapers, candidatesOf, h]
  simp

/-- A paper matching no keyword, for the C6 witness. -/
def w6paper : TPaper :=
  ⟨"Quantum gravity".toList, "X Y".toList, "u".toList, "d".toList,
    "cs.LG".toList⟩

def w6data : TitleData := ⟨5, [w6paper]⟩

def w6dateVal : Str → Option Int := fun _ => some 0

def w6fa : List Str → Except Str AbstractData :=
  fun _ => Except.error "unreached".toList

def w6an : AbPaper → Nat × Str × Str := fun _ => (0, [], [])

/-- C6 witness: one recent paper matching no keyword short-circuits the
pipeline with the empty result and no external calls. -/
theorem empty_candidates_witness :
    curatePapers w6dateVal 0 w6data 0 10 5 w6fa w6an =
      (Except.ok ⟨5, 1, 0, 0, [], []⟩, []) := by
  exact (empty_candidates_spec w6dateVal 0 w6data 0 10 5 w6fa w6an
    (by decide)).trans (by rfl)

lemma not_contains_score (r : Str) (h : containsSub scoreLit r = false) :
    findScore r = none ∧ replaceFirstScore r = r := by
  induction r with
  | nil => exact ⟨rfl, rfl⟩
  | cons c t ih =>
    rw [containsSub, Bool.or_eq_false_iff] at h
    obtain ⟨h1, h2⟩ := h
    have hms : matchScoreHere (c :: t) = none := by
      rw [matchScoreHere, dropLit, if_neg (by simp [h1])]
    have hst : matchStripHere (c :: t) = none := by
      rw [matchStripHere, dropLit, if_neg (by simp [h1])]
    obtain ⟨ihf, ihr⟩ := ih h2
    constructor
    · rw [findScore, hms, ihf]
    · rw [replaceFirstScore, hst, ihr]

/-- The worked example text from the claim. -/
def exC2 : Str := "Score: 7/10 - Strong methodological overlap.".toList

/-- C2 (counterexample): on a marker-free response with trailing
whitespace the scorer returns score 0 but `trim`s the text, so the
reasoning is not the raw response text as claimed. -/
def ceC2 : Str := "no marker here ".toList

/-- C2 (counterexample): `analyzeWithLlama` on `"no marker here "`
yields score 0 but reasoning `"no marker here"` — not the raw text. -/
theorem score_extraction_ce :
    analyzeScore ceC2 = 0 ∧ analyzeReasoning ceC2 ≠ ceC2 := by
  decide

/-- C2 (amended): on the example in the claim the scorer yields score 7 and
reasoning `"Strong methodological overlap."`; and on any response with
no `Score:` marker it yields score 0 and the whitespace-trimmed (rather
than raw) response text as reasoning. -/
theorem score_extraction_spec :
    (analyzeScore exC2 = 7 ∧
      analyzeReasoning exC2 = "Strong methodological overlap.".toList) ∧
    ∀ r : Str, containsSub scoreLit r = false →
      analyzeScore r = 0 ∧ analyzeReasoning r = trimStr r := by
  refine ⟨by decide, fun r h => ?_⟩
  obtain ⟨h1, h2⟩ := not_contains_score r h
  exact ⟨by rw [analyzeScore, h1]; rfl, by rw [analyzeReasoning, h2]⟩

/-- C2 witness: the no-marker case at a concrete response. -/
theorem score_extraction_witness :
    analyzeScore "plain text".toList = 0 ∧
    analyzeReasoning "plain text".toList = trimStr "plain text".toList :=
  score_extraction_spec.2 "plain text".toList (by decide)

/-- C7 (counterexample): the score extractor does not clamp: the oracle
response `"Score: 99/10 - highly relevant"` yields score 99, outside
0–10. -/
def ceC7 : Str := "Score: 99/10 - highly relevant".toList

/-- C7 (counterexample): a returned score lies outside 0..10. -/
theorem score_range_ce :
    (analyzeResult (some ceC7)).1 = 99 ∧
    ¬ (analyzeResult (some ceC7)).1 ≤ 10 := by
  decide

/-- C7 (amended): the returned score is a natural number: 0 on transport
failure, 0 when no `Score:` integer is found, and at most 10 whenever
the integer extracted from the response is at most 10 (the code performs
no clamping, so only oracle compliance keeps it within 0–10). -/
theorem score_range_spec (resp : Option Str) :
    (resp = none → (analyzeResult resp).1 = 0) ∧
    (∀ r, resp = some r → findScore r = none → (analyzeResult resp).1 = 0) ∧
    (∀ r n, resp = some r → findScore r = some n → n ≤ 10 →
      (analyzeResult resp).1 ≤ 10) := by
  refine ⟨?_, ?_, ?_⟩
  · rintro rfl; rfl
  · rintro r rfl h
    show analyzeScore r = 0
    rw [analyzeScore, h]
    rfl
  · rintro r n rfl h hn
    show analyzeScore r ≤ 10
    rw [analyzeScore, h]
    exact hn

/-- C7 witness: the three behaviours at concrete responses. -/
theorem score_range_witness :
    (analyzeResult none).1 = 0 ∧
    (analyzeResult (some "nothing".toList)).1 = 0 ∧
    (analyzeResult (some exC2)).1 ≤ 10 :=
  ⟨(score_range_spec none).1 rfl,
   (score_range_spec (some "nothing".toList)).2.1 _ rfl (by decide),
   (score_range_spec (some exC2)).2.2 _ 7 rfl (by decide) (by norm_num)⟩
